import Mathlib

/-!
Shallow embedding of `src/app.py`, a Slack onboarding-checklist bot.

The SQLite table `onboarding_progress` (primary key `(user_id, task_id)`,
columns `done`, `updated_at`) is modelled as a list of rows; the insert,
select and update statements become list operations.  The catalog `TASKS`
and the resources map are modelled as parameters so that theorems can
quantify over catalogs where the spec does; the concrete literals of the
source are given as `TASKS` and `RESOURCES`.  Timestamps
(`datetime.now(UTC).isoformat()`) are threaded as plain string parameters.
-/

namespace OnboardApp

/-- A catalog entry of `TASKS`: `{"id": ..., "label": ..., "group": ...}`. -/
structure Task where
  id : String
  label : String
  group : String
deriving DecidableEq, Repr

/-- A row of the `onboarding_progress` table. -/
structure Row where
  user_id : String
  task_id : String
  done : Bool
  updated_at : String
deriving DecidableEq, Repr

/-- The database: the rows of `onboarding_progress`, in insertion order. -/
abbrev DB := List Row

/-- The `RESOURCES` dictionary (lines 48-56 of `src/app.py`). -/
structure Resources where
  handbook_url : String
  brand_center_url : String
  pd_recordings_url : String
  staff_directory_url : String
  all_team_channel : String
  announcements_channel : String
  admin_email : String
deriving DecidableEq, Repr

/-- The literal `RESOURCES` value of the source. -/
def RESOURCES : Resources :=
  { handbook_url := "https://docs.google.com/document/d/1711C6vSp4r4EHZw5MbgYuy-LkxrPF-2o69fHCCgU0fQ/edit?usp=sharing"
  , brand_center_url := "https://drive.google.com/file/d/1hTp4w1ufmJVgNkzYxsOLjcdI9kBvro1X/view?usp=sharing"
  , pd_recordings_url := "https://drive.google.com/drive/folders/1VkBMVvdlG0IofZ7_RKB4dMT0aXEzsxew?usp=drive_link"
  , staff_directory_url := "https://docs.google.com/spreadsheets/d/1_7uLjg20Oy-ajgQCVdtozPTiWnO5pgdniR3lpKqRjw0/edit?usp=sharing"
  , all_team_channel := "<#allthemovementstreet>"
  , announcements_channel := "<#announcements>"
  , admin_email := "admin@themovementstreet.org" }

/-- The literal `TASKS` catalog of the source (lines 59-82 of `src/app.py`). -/
def TASKS : List Task :=
  [ ⟨"welcome_letter", "Sign Welcome Letter", "Paperwork"⟩
  , ⟨"nda", "Sign NDA", "Paperwork"⟩
  , ⟨"offer_letter", "Sign Offer Letter", "Paperwork"⟩
  , ⟨"volunteer_agreement", "Sign Volunteer Agreement", "Paperwork"⟩
  , ⟨"contract", "Sign Contract (duties and responsibilities)", "Paperwork"⟩
  , ⟨"upload_docs", "Upload docs & share with admin@themovementstreet.org", "Paperwork"⟩
  , ⟨"staff_directory", "Review Staff Directory", "Integration"⟩
  , ⟨"chapter_handbook", "Read Chapter Handbook", "Integration"⟩
  , ⟨"brand_center", "Explore Brand Center", "Integration"⟩
  , ⟨"pd_recordings", "Watch Professional Development Recordings", "Integration"⟩
  , ⟨"role_checklist", "Review your role-specific checklist", "Workflow"⟩
  , ⟨"setup_workflow", "Set up your role workflows and tools", "Workflow"⟩
  , ⟨"coffee_chat_1", "Coffee Chat #1 with a TMS team member", "Culture"⟩
  , ⟨"coffee_chat_2", "Coffee Chat #2 with a TMS team member", "Culture"⟩
  , ⟨"coffee_chat_3", "Coffee Chat #3 with a TMS team member", "Culture"⟩ ]

/-- The set of task ids of a catalog. -/
def idsOf (tasks : List Task) : Finset String :=
  (tasks.map (fun t => t.id)).toFinset

/-- Does a row with primary key `(u, tid)` exist?  This is the uniqueness
check that `INSERT OR IGNORE` performs against `PRIMARY KEY (user_id, task_id)`. -/
def keyIn (db : DB) (u tid : String) : Bool :=
  db.any (fun r => r.user_id == u && r.task_id == tid)

/-- `INSERT OR IGNORE INTO onboarding_progress VALUES(...)`: append the row
unless a row with the same primary key exists. -/
def insertOrIgnore (db : DB) (r : Row) : DB :=
  if keyIn db r.user_id r.task_id then db else db ++ [r]

/-- `ensure_user_rows` (lines 84-91): for each catalog task, insert
`(user_id, t.id, done=0, now)` if no row with that key exists. -/
def ensure_user_rows (tasks : List Task) (now : String) (user_id : String) (db : DB) : DB :=
  tasks.foldl (fun d t => insertOrIgnore d ⟨user_id, t.id, false, now⟩) db

/-- `get_done_set` (lines 93-95): `SELECT task_id ... WHERE user_id=? AND done=1`,
collected into a Python set. -/
def get_done_set (user_id : String) (db : DB) : Finset String :=
  ((db.filter (fun r => r.user_id == user_id && r.done)).map (fun r => r.task_id)).toFinset

/-- The effect of one `UPDATE ... WHERE user_id=? AND task_id=?` statement
on a single row. -/
def updRow (user_id : String) (now : String) (is_done : Bool) (tid : String) (r : Row) : Row :=
  if r.user_id == user_id && r.task_id == tid
  then { r with done := is_done, updated_at := now }
  else r

/-- The single `UPDATE` statement of `set_done_bulk` for one catalog task:
`UPDATE onboarding_progress SET done=?, updated_at=? WHERE user_id=? AND task_id=?`. -/
def updateOne (user_id : String) (now : String) (is_done : Bool) (tid : String) (db : DB) : DB :=
  db.map (updRow user_id now is_done tid)

/-- `set_done_bulk` (lines 97-105): for every catalog task, set its row's
`done` flag to whether the id is in `new_done_ids`. -/
def set_done_bulk (tasks : List Task) (now : String) (user_id : String)
    (new_done_ids : Finset String) (db : DB) : DB :=
  tasks.foldl (fun d t => updateOne user_id now (if t.id ∈ new_done_ids then true else false) t.id d) db

/-- The combined row-wise effect of all the `UPDATE` statements of
`set_done_bulk`: a row of the given user whose `task_id` is a catalog id
gets `done` set to membership of its id in `new_done_ids` (and `updated_at`
refreshed); every other row is untouched. -/
def bulkUpd (tasks : List Task) (now : String) (user_id : String)
    (new_done_ids : Finset String) (r : Row) : Row :=
  if r.user_id = user_id ∧ r.task_id ∈ tasks.map (fun t => t.id)
  then { r with done := decide (r.task_id ∈ new_done_ids), updated_at := now }
  else r

/-- `group_names_in_order` (lines 107-113): group names in order of first
occurrence in the catalog. -/
def group_names_in_order (tasks : List Task) : List String :=
  tasks.foldl (fun seen t => if t.group ∈ seen then seen else seen ++ [t.group]) []

/-- One `setdefault`-and-append step of `tasks_by_group`. -/
def addToGroup : List (String × List Task) → String → Task → List (String × List Task)
  | [], g, t => [(g, [t])]
  | (k, v) :: rest, g, t =>
      if k = g then (k, v ++ [t]) :: rest else (k, v) :: addToGroup rest g t

/-- `tasks_by_group` (lines 115-119): the insertion-ordered dict from group
name to that group's tasks, modelled as an association list. -/
def tasks_by_group (tasks : List Task) : List (String × List Task) :=
  tasks.foldl (fun m t => addToGroup m t.group t) []

/-- Dict indexing `groups[group_name]` (with `[]` for a missing key; the
source only indexes keys produced by `group_names_in_order`, which are
always present). -/
def getGroup (m : List (String × List Task)) (g : String) : List Task :=
  (m.lookup g).getD []

/-- A checkbox option object:
`{"text": {"type": "plain_text", "text": label}, "value": id}`. -/
structure OptionObj where
  text : String
  value : String
deriving DecidableEq, Repr

/-- The `checkboxes` element built per group (lines 142-153):
its `action_id`, its `options`, and its `initial_options` key, which is
set only when the group's list of completed options is nonempty. -/
structure CheckboxElement where
  action_id : String
  options : List OptionObj
  initial_options : Option (List OptionObj)
deriving DecidableEq, Repr

/-- A Slack Block Kit block as built by `build_home_view`. -/
inductive Block where
  | header (text : String)
  | sectionMrkdwn (text : String)
  | actions (elements : List CheckboxElement)
  | contextMd (text : String)
deriving DecidableEq, Repr

/-- The published App Home view: `{"type": "home", "blocks": blocks}`. -/
structure HomeView where
  blocks : List Block
deriving DecidableEq, Repr

/-- Python `str.lower()` on the ASCII group names: lower-case every
character.  (`String.toLower` is `String.map`, whose well-founded recursion
does not reduce definitionally, so the equivalent structural map over the
underlying character list is used.) -/
def strLower (s : String) : String :=
  ⟨s.data.map Char.toLower⟩

/-- The option object built from a task: `{"text": {...: t["label"]}, "value": t["id"]}`. -/
def optionOf (t : Task) : OptionObj :=
  { text := t.label, value := t.id }

/-- Lines 142-153 of `build_home_view`, for one group's `items`:
`options` covers every task, `initial` the completed ones, and
`initial_options` is only set if `initial` is nonempty. -/
def checkboxElementFor (group_name : String) (items : List Task) (done : Finset String) :
    CheckboxElement :=
  let options := items.map optionOf
  let initial := (items.filter (fun t => decide (t.id ∈ done))).map optionOf
  { action_id := "task_toggle_" ++ strLower group_name
  , options := options
  , initial_options := if initial.isEmpty then none else some initial }

/-- The `f"{len(done)}/{total} completed"` progress string (line 124). -/
def progressText (done : Finset String) (total : Nat) : String :=
  toString done.card ++ "/" ++ toString total ++ " completed"

/-- The resources context line (lines 160-166). -/
def resourcesMd (res : Resources) : String :=
  res.all_team_channel ++ " • " ++ res.announcements_channel ++ " • " ++
  "<" ++ res.handbook_url ++ "|Handbook> • " ++
  "<" ++ res.brand_center_url ++ "|Brand Center> • " ++
  "<" ++ res.pd_recordings_url ++ "|PD Recordings> • " ++
  "<" ++ res.staff_directory_url ++ "|Staff Directory>"

/-- Lines 123-169 of `build_home_view`: the view rendered from a catalog,
the resources map and the user's completed set (the body after the
`done = get_done_set(user_id)` read on line 122). -/
def render_home (tasks : List Task) (res : Resources) (done : Finset String) : HomeView :=
  let total := tasks.length
  let headBlocks : List Block :=
    [ .header "TMS Onboarding Checklist"
    , .sectionMrkdwn "Welcome to The Movement Street. Check items as you complete them. Your progress saves automatically."
    , .sectionMrkdwn ("*Progress:* " ++ progressText done total) ]
  let groups := tasks_by_group tasks
  let groupBlocks : List Block :=
    (group_names_in_order tasks).flatMap (fun group_name =>
      let items := getGroup groups group_name
      let group_done_count := items.countP (fun t => decide (t.id ∈ done))
      [ .sectionMrkdwn ("*" ++ group_name ++ "* (" ++ toString group_done_count ++ "/" ++
          toString items.length ++ ")")
      , .actions [checkboxElementFor group_name items done] ])
  { blocks := headBlocks ++ groupBlocks ++ [.contextMd ("Resources: " ++ resourcesMd res)] }

/-- `build_home_view` (lines 121-169): read the user's completed set from
the store (line 122), then render. -/
def build_home_view (tasks : List Task) (res : Resources) (db : DB) (user_id : String) :
    HomeView :=
  render_home tasks res (get_done_set user_id db)

/-- `action_id.replace("task_toggle_", "", 1)` (line 198).  The handler is
dispatched on the regex `^task_toggle_` (line 193), so the action id starts
with `task_toggle_` and replacing the first occurrence is dropping the
prefix of length 12. -/
def toggleGroupKey (action_id : String) : String :=
  action_id.drop 12

/-- Line 201: the catalog tasks whose group name, lower-cased, equals the key. -/
def groupTasksFor (tasks : List Task) (group_key : String) : List Task :=
  tasks.filter (fun t => strLower t.group == group_key)

/-- Line 202: the set of this group's task ids. -/
def groupTaskIdsFor (tasks : List Task) (group_key : String) : Finset String :=
  ((groupTasksFor tasks group_key).map (fun t => t.id)).toFinset

/-- Line 209: `new_done = (current_done - group_task_ids) | selected_ids`. -/
def mergeDone (current_done group_task_ids selected_ids : Finset String) : Finset String :=
  (current_done \ group_task_ids) ∪ selected_ids

/-- The result of one toggle interaction: the updated store and the view
republished by `client.views_publish`. -/
structure StepResult where
  db : DB
  view : HomeView
deriving Repr

/-- `handle_toggle_any_group` (lines 193-213).  `selected` is the list of
`opt["value"]` strings of the payload's `selected_options`; `nowE` and
`nowS` are the timestamps taken by `ensure_user_rows` and `set_done_bulk`. -/
def handle_toggle_any_group (tasks : List Task) (res : Resources) (nowE nowS : String)
    (user_id action_id : String) (selected : List String) (db : DB) : StepResult :=
  let group_key := toggleGroupKey action_id
  let group_task_ids := groupTaskIdsFor tasks group_key
  let selected_ids : Finset String := selected.toFinset
  let current_done := get_done_set user_id db
  let new_done := mergeDone current_done group_task_ids selected_ids
  let db1 := ensure_user_rows tasks nowE user_id db
  let db2 := set_done_bulk tasks nowS user_id new_done db1
  { db := db2, view := build_home_view tasks res db2 user_id }

/-- `handle_home_opened` (lines 174-178) and, up to the extra welcome
message, `handle_team_join` (lines 181-190) and the `/onboard` command
(lines 216-221): ensure the user's rows exist, then publish the home view. -/
def handle_home_opened (tasks : List Task) (res : Resources) (now : String)
    (user_id : String) (db : DB) : StepResult :=
  let db1 := ensure_user_rows tasks now user_id db
  { db := db1, view := build_home_view tasks res db1 user_id }

/-- The stores reachable by the program's writes: the table starts empty
(`CREATE TABLE IF NOT EXISTS`), and every handler writes only through
`ensure_user_rows` and `set_done_bulk`. -/
inductive ReachableDB (tasks : List Task) : DB → Prop where
  | empty : ReachableDB tasks []
  | ensure (now u : String) {db : DB} :
      ReachableDB tasks db → ReachableDB tasks (ensure_user_rows tasks now u db)
  | setBulk (now u : String) (nd : Finset String) {db : DB} :
      ReachableDB tasks db → ReachableDB tasks (set_done_bulk tasks now u nd db)

/-! ### Concrete fixtures used by witnesses and counterexamples -/

/-- The three-task, two-group catalog of the spec's end-to-end scenario. -/
def catalog3 : List Task :=
  [ ⟨"t1", "Task one", "G1"⟩, ⟨"t2", "Task two", "G1"⟩, ⟨"t3", "Task three", "G2"⟩ ]

/-- Scenario step 0: new user `u1` opens the App Home. -/
def c3_step0 : StepResult := handle_home_opened catalog3 RESOURCES "n0" "u1" []

/-- Scenario step 1: toggle `G1` with `selected = {t1}`. -/
def c3_step1 : StepResult :=
  handle_toggle_any_group catalog3 RESOURCES "n1" "n1s" "u1" "task_toggle_g1" ["t1"] c3_step0.db

/-- Scenario step 2: toggle `G2` with `selected = {t3}`. -/
def c3_step2 : StepResult :=
  handle_toggle_any_group catalog3 RESOURCES "n2" "n2s" "u1" "task_toggle_g2" ["t3"] c3_step1.db

/-- Scenario step 3: toggle `G1` with `selected = {}`. -/
def c3_step3 : StepResult :=
  handle_toggle_any_group catalog3 RESOURCES "n3" "n3s" "u1" "task_toggle_g1" [] c3_step2.db

/-- A two-group catalog: task `a1` in group `A`, task `b1` in group `B`. -/
def catalogAB : List Task :=
  [ ⟨"a1", "Task a1", "A"⟩, ⟨"b1", "Task b1", "B"⟩ ]

/-- User `u` initialized on `catalogAB`, nothing completed. -/
def dbAB : DB := ensure_user_rows catalogAB "n0" "u" []

/-- Toggling group `A` while the payload smuggles in `b1` of group `B`. -/
def c1_toggle : StepResult :=
  handle_toggle_any_group catalogAB RESOURCES "n1" "n1s" "u" "task_toggle_a" ["b1"] dbAB

/-- A toggle whose action id names no catalog group, with a nonempty payload. -/
def c2_toggle : StepResult :=
  handle_toggle_any_group catalogAB RESOURCES "n1" "n1s" "u" "task_toggle_zzz" ["a1"] dbAB

/-- The catalog of the spec's group-isolation example: `a1`, `a2` in group
`A` and `b1` in group `B`. -/
def catalogAAB : List Task :=
  [ ⟨"a1", "Task a1", "A"⟩, ⟨"a2", "Task a2", "A"⟩, ⟨"b1", "Task b1", "B"⟩ ]

/-- A store where `currentDone = {a1, b1}` for user `u`. -/
def dbA1B1 : DB :=
  [ ⟨"u", "a1", true, "n"⟩, ⟨"u", "a2", false, "n"⟩, ⟨"u", "b1", true, "n"⟩ ]

/-- Toggling group `A` with `selected = {a2}` over `currentDone = {a1, b1}`. -/
def c4_toggle : StepResult :=
  handle_toggle_any_group catalogAAB RESOURCES "n1" "n1s" "u" "task_toggle_a" ["a2"] dbA1B1

/-- A store that has rows only for a different user. -/
def dbOtherUser : DB := [ ⟨"other", "a1", true, "n"⟩ ]

/-- A toggle by a user who was never initialized. -/
def c10_toggle : StepResult :=
  handle_toggle_any_group catalogAAB RESOURCES "n1" "n1s" "u" "task_toggle_a" ["a1"] dbOtherUser

/-! ### Basic store lemmas -/

/-- Membership in the completed set read by `get_done_set`. -/
lemma mem_get_done_set {u tid : String} {db : DB} :
    tid ∈ get_done_set u db ↔ ∃ r ∈ db, r.user_id = u ∧ r.done = true ∧ r.task_id = tid := by
  simp only [get_done_set, List.mem_toFinset, List.mem_map, List.mem_filter,
    Bool.and_eq_true, beq_iff_eq]
  constructor
  · rintro ⟨r, ⟨hr, hu, hd⟩, ht⟩
    exact ⟨r, hr, hu, hd, ht⟩
  · rintro ⟨r, hr, hu, hd, ht⟩
    exact ⟨r, ⟨hr, hu, hd⟩, ht⟩

/-- The primary-key existence check, unfolded. -/
lemma keyIn_iff {db : DB} {u tid : String} :
    keyIn db u tid = true ↔ ∃ r ∈ db, r.user_id = u ∧ r.task_id = tid := by
  simp [keyIn, List.any_eq_true, Bool.and_eq_true, beq_iff_eq]

/-- `keyIn` on an appended store. -/
lemma keyIn_append {db ext : DB} {u tid : String} :
    keyIn (db ++ ext) u tid = (keyIn db u tid || keyIn ext u tid) := by
  simp [keyIn, List.any_append]

/-- Membership in a catalog's id set. -/
lemma mem_idsOf {tasks : List Task} {tid : String} :
    tid ∈ idsOf tasks ↔ tid ∈ tasks.map (fun t => t.id) := by
  simp [idsOf]

/-! ### `set_done_bulk` as a single row-wise map -/

lemma bulkUpd_nil (now u : String) (nd : Finset String) (r : Row) :
    bulkUpd [] now u nd r = r := by
  simp [bulkUpd]

lemma bulkUpd_updRow (t : Task) (ts : List Task) (now u : String) (nd : Finset String)
    (r : Row) :
    bulkUpd ts now u nd (updRow u now (if t.id ∈ nd then true else false) t.id r) =
      bulkUpd (t :: ts) now u nd r := by
  obtain ⟨ru, rt, rd, rupd⟩ := r
  by_cases h1 : ru = u
  · by_cases h2 : rt = t.id
    · by_cases h3 : rt ∈ ts.map (fun t => t.id)
      · simp [updRow, bulkUpd, h1, h2, h3]
      · subst h2
        simp [updRow, bulkUpd, h1, h3]
    · by_cases h3 : rt ∈ ts.map (fun t => t.id)
      · simp [updRow, bulkUpd, h1, h2, h3]
      · simp [updRow, bulkUpd, h1, h2, h3]
  · simp [updRow, bulkUpd, h1]

/-- `set_done_bulk` is the row-wise map of `bulkUpd` over the store. -/
lemma set_done_bulk_eq_map (tasks : List Task) (now u : String) (nd : Finset String)
    (db : DB) :
    set_done_bulk tasks now u nd db = db.map (bulkUpd tasks now u nd) := by
  induction tasks generalizing db with
  | nil =>
      simp only [set_done_bulk, List.foldl_nil]
      symm
      rw [show bulkUpd ([] : List Task) now u nd = id from
            funext (fun r => bulkUpd_nil now u nd r),
          List.map_id]
  | cons t ts ih =>
      show set_done_bulk ts now u nd (updateOne u now _ t.id db) = _
      rw [ih, updateOne, List.map_map]
      exact List.map_congr_left (fun r _ => bulkUpd_updRow t ts now u nd r)

lemma bulkUpd_user_id (tasks : List Task) (now u : String) (nd : Finset String) (r : Row) :
    (bulkUpd tasks now u nd r).user_id = r.user_id := by
  unfold bulkUpd; split <;> rfl

lemma bulkUpd_task_id (tasks : List Task) (now u : String) (nd : Finset String) (r : Row) :
    (bulkUpd tasks now u nd r).task_id = r.task_id := by
  unfold bulkUpd; split <;> rfl

lemma bulkUpd_done (tasks : List Task) (now u : String) (nd : Finset String) (r : Row) :
    (bulkUpd tasks now u nd r).done =
      if r.user_id = u ∧ r.task_id ∈ tasks.map (fun t => t.id)
      then decide (r.task_id ∈ nd) else r.done := by
  unfold bulkUpd; split <;> rfl

/-- A row whose `task_id` is not a catalog id is untouched by `bulkUpd`. -/
lemma bulkUpd_eq_self_of_not_mem (tasks : List Task) (now u : String) (nd : Finset String)
    (r : Row) (h : r.task_id ∉ tasks.map (fun t => t.id)) :
    bulkUpd tasks now u nd r = r := by
  unfold bulkUpd
  rw [if_neg]
  rintro ⟨-, hmem⟩
  exact h hmem

/-- What the completed set looks like after `set_done_bulk`: catalog ids are
completed exactly when they are in `new_done_ids` and a row for the key
exists; ids outside the catalog keep their previous completion state. -/
lemma mem_get_done_set_set_done_bulk {tasks : List Task} {now u tid : String}
    {nd : Finset String} {db : DB} :
    tid ∈ get_done_set u (set_done_bulk tasks now u nd db) ↔
      (tid ∈ idsOf tasks ∧ tid ∈ nd ∧ keyIn db u tid = true) ∨
      (tid ∉ idsOf tasks ∧ tid ∈ get_done_set u db) := by
  rw [set_done_bulk_eq_map]
  constructor
  · intro h
    obtain ⟨r', hr', hu', hd', ht'⟩ := mem_get_done_set.mp h
    obtain ⟨r, hr, rfl⟩ := List.mem_map.mp hr'
    rw [bulkUpd_user_id] at hu'
    rw [bulkUpd_task_id] at ht'
    rw [bulkUpd_done] at hd'
    by_cases hids : tid ∈ tasks.map (fun t => t.id)
    · left
      refine ⟨mem_idsOf.mpr hids, ?_, keyIn_iff.mpr ⟨r, hr, hu', ht'⟩⟩
      rw [if_pos ⟨hu', ht' ▸ hids⟩] at hd'
      simpa [ht'] using hd'
    · right
      refine ⟨fun hc => hids (mem_idsOf.mp hc), ?_⟩
      rw [if_neg (fun hc => hids (ht' ▸ hc.2))] at hd'
      exact mem_get_done_set.mpr ⟨r, hr, hu', hd', ht'⟩
  · rintro (⟨hids, hnd, hkey⟩ | ⟨hids, hdone⟩)
    · obtain ⟨r, hr, hu, ht⟩ := keyIn_iff.mp hkey
      refine mem_get_done_set.mpr ⟨bulkUpd tasks now u nd r, List.mem_map.mpr ⟨r, hr, rfl⟩, ?_, ?_, ?_⟩
      · rw [bulkUpd_user_id]; exact hu
      · rw [bulkUpd_done, if_pos ⟨hu, ht ▸ mem_idsOf.mp hids⟩]
        simp [ht, hnd]
      · rw [bulkUpd_task_id]; exact ht
    · obtain ⟨r, hr, hu, hd, ht⟩ := mem_get_done_set.mp hdone
      have hr_id : bulkUpd tasks now u nd r = r :=
        bulkUpd_eq_self_of_not_mem tasks now u nd r
          (fun hc => hids (mem_idsOf.mpr (ht ▸ hc)))
      exact mem_get_done_set.mpr ⟨r, List.mem_map.mpr ⟨r, hr, hr_id⟩, hu, hd, ht⟩

/-! ### `ensure_user_rows` lemmas -/

lemma ensure_user_rows_nil (now u : String) (db : DB) :
    ensure_user_rows [] now u db = db := rfl

lemma ensure_user_rows_cons (t : Task) (ts : List Task) (now u : String) (db : DB) :
    ensure_user_rows (t :: ts) now u db =
      ensure_user_rows ts now u (insertOrIgnore db ⟨u, t.id, false, now⟩) := rfl

/-- `ensure_user_rows` only appends rows, and every appended row is a fresh
`(u, catalog id, done=false, now)` row whose key was absent from the store. -/
lemma ensure_user_rows_append_decomp (tasks : List Task) (now u : String) (db : DB) :
    ∃ ext, ensure_user_rows tasks now u db = db ++ ext ∧
      ∀ r ∈ ext, r.user_id = u ∧ r.done = false ∧ r.updated_at = now ∧
        r.task_id ∈ tasks.map (fun t => t.id) ∧ keyIn db u r.task_id = false := by
  induction tasks generalizing db with
  | nil =>
      exact ⟨[], by simp [ensure_user_rows_nil]⟩
  | cons t ts ih =>
      rw [ensure_user_rows_cons]
      unfold insertOrIgnore
      by_cases hk : keyIn db u t.id = true
      · rw [if_pos hk]
        obtain ⟨ext, hdec, hprop⟩ := ih db
        refine ⟨ext, hdec, fun r hr => ?_⟩
        obtain ⟨h1, h2, h3, h4, h5⟩ := hprop r hr
        exact ⟨h1, h2, h3, by simp only [List.map_cons]; exact List.mem_cons_of_mem _ h4, h5⟩
      · rw [if_neg hk]
        obtain ⟨ext, hdec, hprop⟩ := ih (db ++ [⟨u, t.id, false, now⟩])
        refine ⟨⟨u, t.id, false, now⟩ :: ext, by rw [hdec, List.append_assoc]; rfl, ?_⟩
        intro r hr
        rcases List.mem_cons.mp hr with rfl | hr'
        · exact ⟨rfl, rfl, rfl, by simp, Bool.not_eq_true _ ▸ hk⟩
        · obtain ⟨h1, h2, h3, h4, h5⟩ := hprop r hr'
          refine ⟨h1, h2, h3, by simp only [List.map_cons]; exact List.mem_cons_of_mem _ h4, ?_⟩
          rw [keyIn_append, Bool.or_eq_false_iff] at h5
          exact h5.1

/-- Existing keys survive `ensure_user_rows`. -/
lemma keyIn_ensure_user_rows_of_keyIn {tasks : List Task} {now u u' tid : String} {db : DB}
    (h : keyIn db u' tid = true) :
    keyIn (ensure_user_rows tasks now u db) u' tid = true := by
  obtain ⟨ext, hdec, -⟩ := ensure_user_rows_append_decomp tasks now u db
  rw [hdec, keyIn_append, h, Bool.true_or]

/-- After `ensure_user_rows`, a row exists for every catalog task of the user. -/
lemma keyIn_ensure_user_rows (tasks : List Task) (now u : String) (db : DB) :
    ∀ t ∈ tasks, keyIn (ensure_user_rows tasks now u db) u t.id = true := by
  induction tasks generalizing db with
  | nil => intro t ht; cases ht
  | cons t ts ih =>
      intro t' ht'
      rw [ensure_user_rows_cons]
      rcases List.mem_cons.mp ht' with rfl | hts
      · apply keyIn_ensure_user_rows_of_keyIn
        unfold insertOrIgnore
        by_cases hk : keyIn db u t'.id = true
        · rwa [if_pos hk]
        · rw [if_neg hk, keyIn_append]
          have : keyIn [(⟨u, t'.id, false, now⟩ : Row)] u t'.id = true := by
            simp [keyIn]
          rw [this, Bool.or_true]
      · exact ih _ t' hts

/-- If every catalog key already exists for the user, `ensure_user_rows`
is the identity (all its `INSERT OR IGNORE` statements are ignored). -/
lemma ensure_user_rows_of_keys (tasks : List Task) (now u : String) (db : DB)
    (h : ∀ t ∈ tasks, keyIn db u t.id = true) :
    ensure_user_rows tasks now u db = db := by
  induction tasks with
  | nil => rfl
  | cons t ts ih =>
      rw [ensure_user_rows_cons]
      unfold insertOrIgnore
      rw [if_pos (h t (List.mem_cons_self t ts))]
      exact ih (fun t' ht' => h t' (List.mem_cons_of_mem t ht'))

/-- A second `ensure_user_rows` call (with any timestamp) is a no-op. -/
lemma ensure_user_rows_idem (tasks : List Task) (now now' u : String) (db : DB) :
    ensure_user_rows tasks now' u (ensure_user_rows tasks now u db) =
      ensure_user_rows tasks now u db :=
  ensure_user_rows_of_keys tasks now' u _ (keyIn_ensure_user_rows tasks now u db)

/-- `ensure_user_rows` never changes any completed set: the rows it inserts
all carry `done=false`. -/
lemma get_done_set_ensure_user_rows (tasks : List Task) (now u u' : String) (db : DB) :
    get_done_set u' (ensure_user_rows tasks now u db) = get_done_set u' db := by
  obtain ⟨ext, hdec, hprop⟩ := ensure_user_rows_append_decomp tasks now u db
  rw [hdec]
  unfold get_done_set
  rw [List.filter_append]
  have hnil : ext.filter (fun r => r.user_id == u' && r.done) = [] := by
    rw [List.filter_eq_nil_iff]
    intro r hr
    have := (hprop r hr).2.1
    simp [this]
  rw [hnil, List.append_nil]

/-! ### The toggle handler's effect on the stored completed set -/

/-- A group's task ids are catalog task ids. -/
lemma groupTaskIdsFor_subset_idsOf (tasks : List Task) (key : String) :
    groupTaskIdsFor tasks key ⊆ idsOf tasks := by
  intro tid h
  rw [mem_idsOf]
  simp only [groupTaskIdsFor, groupTasksFor, List.mem_toFinset, List.mem_map] at h
  obtain ⟨t, ht, rfl⟩ := h
  exact List.mem_map.mpr ⟨t, (List.mem_filter.mp ht).1, rfl⟩

/-- The store left by `handle_toggle_any_group`, at the level of the user's
completed set: a catalog id is completed exactly when the merged
`new_done` set contains it, and a non-catalog id keeps its prior state. -/
lemma mem_get_done_set_handle_toggle (tasks : List Task) (res : Resources)
    (nowE nowS u action_id : String) (selected : List String) (db : DB) (tid : String) :
    tid ∈ get_done_set u (handle_toggle_any_group tasks res nowE nowS u action_id selected db).db ↔
      (tid ∈ idsOf tasks ∧
        tid ∈ mergeDone (get_done_set u db)
          (groupTaskIdsFor tasks (toggleGroupKey action_id)) selected.toFinset) ∨
      (tid ∉ idsOf tasks ∧ tid ∈ get_done_set u db) := by
  show tid ∈ get_done_set u (set_done_bulk tasks nowS u _ (ensure_user_rows tasks nowE u db)) ↔ _
  rw [mem_get_done_set_set_done_bulk, get_done_set_ensure_user_rows]
  constructor
  · rintro (⟨hids, hnd, -⟩ | ⟨hids, hdone⟩)
    · exact Or.inl ⟨hids, hnd⟩
    · exact Or.inr ⟨hids, hdone⟩
  · rintro (⟨hids, hnd⟩ | ⟨hids, hdone⟩)
    · refine Or.inl ⟨hids, hnd, ?_⟩
      have ht : ∃ t ∈ tasks, t.id = tid := by
        simpa [mem_idsOf, List.mem_map] using hids
      obtain ⟨t, htm, rfl⟩ := ht
      exact keyIn_ensure_user_rows tasks nowE u db t htm
    · exact Or.inr ⟨hids, hdone⟩

/-- The handler republishes the view rendered from the store it just wrote. -/
lemma handle_toggle_view (tasks : List Task) (res : Resources)
    (nowE nowS u action_id : String) (selected : List String) (db : DB) :
    (handle_toggle_any_group tasks res nowE nowS u action_id selected db).view =
      render_home tasks res
        (get_done_set u (handle_toggle_any_group tasks res nowE nowS u action_id selected db).db) :=
  rfl

/-! ### `tasks_by_group` and `group_names_in_order` -/

/-- One `setdefault`-append step, seen through dict indexing. -/
lemma getGroup_addToGroup (m : List (String × List Task)) (g k : String) (t : Task) :
    getGroup (addToGroup m g t) k = getGroup m k ++ (if g = k then [t] else []) := by
  induction m with
  | nil =>
      by_cases h : g = k
      · subst h; simp [addToGroup, getGroup, List.lookup]
      · have hb : (k == g) = false := beq_eq_false_iff_ne.mpr (Ne.symm h)
        simp [addToGroup, getGroup, List.lookup, hb, h]
  | cons p rest ih =>
      obtain ⟨k0, v0⟩ := p
      by_cases h0 : k0 = g
      · subst h0
        by_cases hk : k0 = k
        · subst hk; simp [addToGroup, getGroup, List.lookup]
        · have hb : (k == k0) = false := beq_eq_false_iff_ne.mpr (Ne.symm hk)
          simp [addToGroup, getGroup, List.lookup, hb, hk]
      · by_cases hk : k = k0
        · subst hk
          have hgk : ¬ g = k := fun hc => h0 hc.symm
          simp [addToGroup, getGroup, List.lookup, h0, hgk]
        · have hb : (k == k0) = false := beq_eq_false_iff_ne.mpr hk
          simp only [addToGroup, if_neg h0, getGroup, List.lookup, hb]
          exact ih

/-- Generalized over the dict accumulator: folding the catalog into the
dict appends, at each key, exactly the tasks of that group in catalog
order. -/
lemma getGroup_foldl_addToGroup (tasks : List Task) (m : List (String × List Task))
    (g : String) :
    getGroup (tasks.foldl (fun m t => addToGroup m t.group t) m) g =
      getGroup m g ++ tasks.filter (fun t => t.group == g) := by
  induction tasks generalizing m with
  | nil => simp
  | cons t ts ih =>
      rw [List.foldl_cons, ih, getGroup_addToGroup]
      by_cases h : t.group = g
      · simp [List.filter_cons, h]
      · simp [List.filter_cons, h]

/-- `groups[group_name]` is exactly the catalog tasks of that group, in
catalog order. -/
lemma getGroup_tasks_by_group (tasks : List Task) (g : String) :
    getGroup (tasks_by_group tasks) g = tasks.filter (fun t => t.group == g) := by
  rw [tasks_by_group, getGroup_foldl_addToGroup]
  rfl

/-- `group_names_in_order` is the fold over the catalog's group-name list. -/
lemma group_names_in_order_eq_foldl (tasks : List Task) :
    group_names_in_order tasks =
      (tasks.map (fun t => t.group)).foldl
        (fun seen g => if g ∈ seen then seen else seen ++ [g]) [] := by
  rw [group_names_in_order, List.foldl_map]

/-- The first-occurrence dedup fold: its result enumerates exactly the
names of the input, without duplicates, ordered by first occurrence. -/
lemma dedup_fold_props (names : List String) :
    (∀ x, x ∈ names.foldl (fun seen g => if g ∈ seen then seen else seen ++ [g]) [] ↔
        x ∈ names) ∧
      (names.foldl (fun seen g => if g ∈ seen then seen else seen ++ [g]) []).Nodup ∧
      (names.foldl (fun seen g => if g ∈ seen then seen else seen ++ [g]) []).Pairwise
        (fun a b => names.indexOf a < names.indexOf b) := by
  induction names using List.reverseRecOn with
  | nil => simp
  | append_singleton l g ih =>
      obtain ⟨hmem, hnd, hpw⟩ := ih
      rw [List.foldl_append, List.foldl_cons, List.foldl_nil]
      by_cases hg : g ∈ l.foldl (fun seen g => if g ∈ seen then seen else seen ++ [g]) []
      · rw [if_pos hg]
        refine ⟨?_, hnd, ?_⟩
        · intro x
          rw [hmem x, List.mem_append, List.mem_singleton]
          constructor
          · exact Or.inl
          · rintro (hx | rfl)
            · exact hx
            · exact (hmem x).mp hg
        · refine hpw.imp_of_mem ?_
          intro a b ha hb hab
          rw [List.indexOf_append_of_mem ((hmem a).mp ha),
            List.indexOf_append_of_mem ((hmem b).mp hb)]
          exact hab
      · rw [if_neg hg]
        have hgl : g ∉ l := fun hc => hg ((hmem g).mpr hc)
        refine ⟨?_, ?_, ?_⟩
        · intro x
          rw [List.mem_append, List.mem_singleton, hmem x, List.mem_append,
            List.mem_singleton]
        · rw [List.nodup_append]
          exact ⟨hnd, List.nodup_singleton g,
            fun a ha hb => hg ((List.mem_singleton.mp hb) ▸ ha)⟩
        · rw [List.pairwise_append]
          refine ⟨?_, List.pairwise_singleton _ g, ?_⟩
          · refine hpw.imp_of_mem ?_
            intro a b ha hb hab
            rw [List.indexOf_append_of_mem ((hmem a).mp ha),
              List.indexOf_append_of_mem ((hmem b).mp hb)]
            exact hab
          · intro a ha b hb
            rw [List.mem_singleton] at hb
            subst hb
            rw [List.indexOf_append_of_mem ((hmem a).mp ha),
              List.indexOf_append_of_not_mem hgl]
            calc List.indexOf a l < l.length := List.indexOf_lt_length.mpr ((hmem a).mp ha)
              _ ≤ l.length + List.indexOf b [b] := Nat.le_add_right _ _

/-- `group_names_in_order` enumerates each catalog group exactly once, in
order of first occurrence in the catalog sequence. -/
lemma group_names_in_order_props (tasks : List Task) :
    (∀ g, g ∈ group_names_in_order tasks ↔ g ∈ tasks.map (fun t => t.group)) ∧
      (group_names_in_order tasks).Nodup ∧
      (group_names_in_order tasks).Pairwise
        (fun a b => (tasks.map (fun t => t.group)).indexOf a <
          (tasks.map (fun t => t.group)).indexOf b) := by
  rw [group_names_in_order_eq_foldl]
  exact dedup_fold_props (tasks.map (fun t => t.group))

/-- Rewriting every row's `updated_at` leaves every completed set unchanged:
`get_done_set` never reads the timestamp column. -/
lemma get_done_set_map_updated_at (u : String) (db : DB) (f : String → String) :
    get_done_set u (db.map (fun r => { r with updated_at := f r.updated_at })) =
      get_done_set u db := by
  ext tid
  rw [mem_get_done_set, mem_get_done_set]
  constructor
  · rintro ⟨r', hr', hu, hd, ht⟩
    obtain ⟨r, hr, rfl⟩ := List.mem_map.mp hr'
    exact ⟨r, hr, hu, hd, ht⟩
  · rintro ⟨r, hr, hu, hd, ht⟩
    exact ⟨_, List.mem_map.mpr ⟨r, hr, rfl⟩, hu, hd, ht⟩

/-- Any further sequence of `ensure_user_rows` calls for the same user
(with arbitrary timestamps) after a first call is a no-op. -/
lemma ensure_user_rows_iterate (tasks : List Task) (now u : String) (nows : List String)
    (db : DB) :
    nows.foldl (fun d n => ensure_user_rows tasks n u d) (ensure_user_rows tasks now u db) =
      ensure_user_rows tasks now u db := by
  induction nows with
  | nil => rfl
  | cons n ns ih =>
      rw [List.foldl_cons, ensure_user_rows_idem tasks now n u db]
      exact ih

/-! ### Claim theorems -/

/-- Claim C1, counterexample: the handler does NOT intersect the selected
ids with the toggled group's task ids.  Toggling group `A` of `catalogAB`
with `selected = {b1}` (`b1` belongs to group `B`) changes the completed
set outside `A`'s task ids: `b1` is persisted as done, while the claim's
formula `(currentDone − groupTaskIds) ∪ (selected ∩ groupTaskIds)` would
leave the completed set empty. -/
theorem C1_counterexample :
    ¬ (get_done_set "u" c1_toggle.db \ groupTaskIdsFor catalogAB (toggleGroupKey "task_toggle_a") =
        get_done_set "u" dbAB \ groupTaskIdsFor catalogAB (toggleGroupKey "task_toggle_a")) ∧
      get_done_set "u" dbAB = ∅ ∧
      get_done_set "u" c1_toggle.db = {"b1"} ∧
      "b1" ∉ groupTaskIdsFor catalogAB (toggleGroupKey "task_toggle_a") ∧
      mergeDone (get_done_set "u" dbAB)
          (groupTaskIdsFor catalogAB (toggleGroupKey "task_toggle_a"))
          (({"b1"} : Finset String) ∩ groupTaskIdsFor catalogAB (toggleGroupKey "task_toggle_a")) =
        ∅ := by
  decide

/-- Claim C1, amended: the merge takes the selected ids as-is,
`new_done = (currentDone − groupTaskIds) ∪ selected`, with no intersection:
every selected value that is a catalog task id — even one belonging to a
different group than the toggled one — ends up completed in the store,
while ids outside the catalog are never persisted (they fall in the
`tid ∉ idsOf` branch, which preserves the prior state). -/
theorem C1_amended_no_intersection (tasks : List Task) (res : Resources)
    (nowE nowS u action_id : String) (selected : List String) (db : DB) :
    (∀ tid,
      tid ∈ get_done_set u
          (handle_toggle_any_group tasks res nowE nowS u action_id selected db).db ↔
        (tid ∈ idsOf tasks ∧
          tid ∈ mergeDone (get_done_set u db)
            (groupTaskIdsFor tasks (toggleGroupKey action_id)) selected.toFinset) ∨
        (tid ∉ idsOf tasks ∧ tid ∈ get_done_set u db)) ∧
    (∀ tid ∈ selected, tid ∈ idsOf tasks →
      tid ∈ get_done_set u
        (handle_toggle_any_group tasks res nowE nowS u action_id selected db).db) := by
  refine ⟨fun tid => mem_get_done_set_handle_toggle tasks res nowE nowS u action_id selected db tid, ?_⟩
  intro tid htid hids
  rw [mem_get_done_set_handle_toggle]
  exact Or.inl ⟨hids, Finset.mem_union_right _ (List.mem_toFinset.mpr htid)⟩

/-- Claim C1, witness for the amended theorem: in the counterexample run,
the foreign selected id `b1` is persisted as completed. -/
theorem C1_amended_witness :
    "b1" ∈ get_done_set "u" c1_toggle.db :=
  (C1_amended_no_intersection catalogAB RESOURCES "n1" "n1s" "u" "task_toggle_a" ["b1"]
    dbAB).2 "b1" (by decide) (by decide)

/-- Claim C2, counterexample: an action id naming no catalog group is NOT a
no-op for every payload: with `selected = {a1}` (a catalog id), the
unknown-group toggle `task_toggle_zzz` adds `a1` to the stored completed
set. -/
theorem C2_counterexample :
    groupTasksFor catalogAB (toggleGroupKey "task_toggle_zzz") = [] ∧
      ¬ (get_done_set "u" c2_toggle.db = get_done_set "u" dbAB) ∧
      get_done_set "u" dbAB = ∅ ∧
      get_done_set "u" c2_toggle.db = {"a1"} := by
  decide

/-- Claim C2, amended: a group-toggle whose action identifier names a group
not present in the catalog (matched case-insensitively) is a no-op on the
user's stored completed set provided no selected id is a current catalog
task id (in particular, for an empty payload, or for the stale ids of a
group that was removed from the catalog), and the handler still re-renders
the view from the (unchanged) completed set. -/
theorem C2_amended_unknown_group (tasks : List Task) (res : Resources)
    (nowE nowS u action_id : String) (selected : List String) (db : DB)
    (hg : ∀ t ∈ tasks, strLower t.group ≠ toggleGroupKey action_id)
    (hsel : ∀ s ∈ selected, s ∉ idsOf tasks) :
    get_done_set u (handle_toggle_any_group tasks res nowE nowS u action_id selected db).db =
        get_done_set u db ∧
      (handle_toggle_any_group tasks res nowE nowS u action_id selected db).view =
        render_home tasks res (get_done_set u db) := by
  have hgt : groupTasksFor tasks (toggleGroupKey action_id) = [] := by
    rw [groupTasksFor, List.filter_eq_nil_iff]
    intro t ht
    simpa using hg t ht
  have hgids : groupTaskIdsFor tasks (toggleGroupKey action_id) = ∅ := by
    rw [groupTaskIdsFor, hgt]
    rfl
  have hset :
      get_done_set u (handle_toggle_any_group tasks res nowE nowS u action_id selected db).db =
        get_done_set u db := by
    ext tid
    rw [mem_get_done_set_handle_toggle, hgids]
    constructor
    · rintro (⟨hids, hm⟩ | ⟨-, hc⟩)
      · rcases Finset.mem_union.mp hm with hm1 | hm2
        · exact (Finset.mem_sdiff.mp hm1).1
        · exact absurd hids (hsel tid (List.mem_toFinset.mp hm2))
      · exact hc
    · intro hc
      by_cases hids : tid ∈ idsOf tasks
      · exact Or.inl ⟨hids,
          Finset.mem_union_left _ (Finset.mem_sdiff.mpr ⟨hc, Finset.not_mem_empty tid⟩)⟩
      · exact Or.inr ⟨hids, hc⟩
  refine ⟨hset, ?_⟩
  rw [handle_toggle_view, hset]

/-- Claim C2, witness for the amended theorem: on `catalogAB`, the
unknown-group toggle `task_toggle_zzz` with the non-catalog payload
`{"zz"}` leaves the stored completed set unchanged. -/
theorem C2_amended_witness :
    get_done_set "u"
        (handle_toggle_any_group catalogAB RESOURCES "n1" "n1s" "u" "task_toggle_zzz" ["zz"]
          dbAB).db =
      get_done_set "u" dbAB :=
  (C2_amended_unknown_group catalogAB RESOURCES "n1" "n1s" "u" "task_toggle_zzz" ["zz"] dbAB
    (by decide) (by decide)).1

/-- Claim C3: on the three-task, two-group scenario catalog, the sequence
new-user initialization, toggle `G1` with `{t1}`, toggle `G2` with `{t3}`,
toggle `G1` with `{}` yields the completed sets `{}`, `{t1}`, `{t1,t3}`,
`{t3}`, and the rendered progress line (the third block of each published
view) reads `0/3 completed`, `1/3 completed`, `2/3 completed`,
`1/3 completed` respectively (after the `*Progress:* ` markdown prefix). -/
theorem C3_end_to_end_scenario :
    get_done_set "u1" c3_step0.db = ∅ ∧
      get_done_set "u1" c3_step1.db = {"t1"} ∧
      get_done_set "u1" c3_step2.db = {"t1", "t3"} ∧
      get_done_set "u1" c3_step3.db = {"t3"} ∧
      c3_step0.view.blocks[2]? = some (.sectionMrkdwn ("*Progress:* " ++ "0/3 completed")) ∧
      c3_step1.view.blocks[2]? = some (.sectionMrkdwn ("*Progress:* " ++ "1/3 completed")) ∧
      c3_step2.view.blocks[2]? = some (.sectionMrkdwn ("*Progress:* " ++ "2/3 completed")) ∧
      c3_step3.view.blocks[2]? = some (.sectionMrkdwn ("*Progress:* " ++ "1/3 completed")) := by
  decide

/-- Claim C4: when every selected id belongs to the toggled group, the
merge leaves the completion state of every task outside the group
unchanged, and inside the group exactly the selected tasks end up
completed (previously completed group tasks not selected become
incomplete). -/
theorem C4_group_isolation (tasks : List Task) (res : Resources)
    (nowE nowS u action_id : String) (selected : List String) (db : DB)
    (hsel : ∀ s ∈ selected, s ∈ groupTaskIdsFor tasks (toggleGroupKey action_id)) :
    (∀ tid, tid ∉ groupTaskIdsFor tasks (toggleGroupKey action_id) →
      (tid ∈ get_done_set u
          (handle_toggle_any_group tasks res nowE nowS u action_id selected db).db ↔
        tid ∈ get_done_set u db)) ∧
    (∀ tid ∈ groupTaskIdsFor tasks (toggleGroupKey action_id),
      (tid ∈ get_done_set u
          (handle_toggle_any_group tasks res nowE nowS u action_id selected db).db ↔
        tid ∈ selected.toFinset)) := by
  constructor
  · intro tid hout
    rw [mem_get_done_set_handle_toggle]
    constructor
    · rintro (⟨hids, hm⟩ | ⟨-, hc⟩)
      · rcases Finset.mem_union.mp hm with hm1 | hm2
        · exact (Finset.mem_sdiff.mp hm1).1
        · exact absurd (hsel tid (List.mem_toFinset.mp hm2)) hout
      · exact hc
    · intro hc
      by_cases hids : tid ∈ idsOf tasks
      · exact Or.inl ⟨hids, Finset.mem_union_left _ (Finset.mem_sdiff.mpr ⟨hc, hout⟩)⟩
      · exact Or.inr ⟨hids, hc⟩
  · intro tid hin
    have hids := groupTaskIdsFor_subset_idsOf tasks (toggleGroupKey action_id) hin
    rw [mem_get_done_set_handle_toggle]
    constructor
    · rintro (⟨-, hm⟩ | ⟨hno, -⟩)
      · rcases Finset.mem_union.mp hm with hm1 | hm2
        · exact absurd hin (Finset.mem_sdiff.mp hm1).2
        · exact hm2
      · exact absurd hids hno
    · intro hs
      exact Or.inl ⟨hids, Finset.mem_union_right _ hs⟩

/-- Claim C4, witness: the spec's example.  With `currentDone = {a1, b1}`
(`a1`, `a2` in group `A`, `b1` in group `B`), toggling `A` with
`selected = {a2}` leaves `b1` untouched, and the stored completed set
becomes `{a2, b1}`. -/
theorem C4_witness :
    ("b1" ∈ get_done_set "u" c4_toggle.db ↔ "b1" ∈ get_done_set "u" dbA1B1) ∧
      get_done_set "u" c4_toggle.db = {"a2", "b1"} :=
  ⟨(C4_group_isolation catalogAAB RESOURCES "n1" "n1s" "u" "task_toggle_a" ["a2"] dbA1B1
      (by decide)).1 "b1" (by decide),
    by decide⟩

/-- Claim C5: `ensure_user_rows` is idempotent and non-destructive.  Any
further calls after the first (with arbitrary timestamps) leave the record
set exactly as after the first call; a call only appends rows, each
appended row being `(user, catalog id, done=false, now)` for a key that
had no row (so no existing row's `done` or `updated_at` is ever changed —
in particular `done=true` is never reset); and after the call a row exists
for every catalog task of the user. -/
theorem C5_ensure_user_rows_idempotent (tasks : List Task) (now u : String)
    (nows : List String) (db : DB) :
    nows.foldl (fun d n => ensure_user_rows tasks n u d) (ensure_user_rows tasks now u db) =
        ensure_user_rows tasks now u db ∧
      (∃ ext, ensure_user_rows tasks now u db = db ++ ext ∧
        ∀ r ∈ ext, r.user_id = u ∧ r.done = false ∧ r.updated_at = now ∧
          r.task_id ∈ tasks.map (fun t => t.id) ∧ keyIn db u r.task_id = false) ∧
      (∀ t ∈ tasks, keyIn (ensure_user_rows tasks now u db) u t.id = true) :=
  ⟨ensure_user_rows_iterate tasks now u nows db,
    ensure_user_rows_append_decomp tasks now u db,
    keyIn_ensure_user_rows tasks now u db⟩

/-- Claim C5, witness: initializing `u1` on the scenario catalog and then
calling `ensure_user_rows` twice more changes nothing. -/
theorem C5_witness :
    ["m1", "m2"].foldl (fun d n => ensure_user_rows catalog3 n "u1" d)
        (ensure_user_rows catalog3 "n0" "u1" []) =
      ensure_user_rows catalog3 "n0" "u1" [] :=
  (C5_ensure_user_rows_idempotent catalog3 "n0" "u1" ["m1", "m2"] []).1

/-- Claim C6: the checkbox control of a group with zero completed tasks
carries no `initial_options` field at all (`none`, never an empty list);
when at least one of the group's tasks is completed, the field is present
and holds exactly the options of the group's completed tasks (so its
values are exactly that group's completed task ids). -/
theorem C6_initial_options_omitted_when_empty (group_name : String) (items : List Task)
    (done : Finset String) :
    ((checkboxElementFor group_name items done).initial_options = none ↔
        ∀ t ∈ items, t.id ∉ done) ∧
      (∀ opts, (checkboxElementFor group_name items done).initial_options = some opts →
        opts ≠ [] ∧
          opts = (items.filter (fun t => decide (t.id ∈ done))).map optionOf ∧
          opts.map (fun o => o.value) =
            (items.filter (fun t => decide (t.id ∈ done))).map (fun t => t.id)) := by
  simp only [checkboxElementFor]
  by_cases h : ((items.filter (fun t => decide (t.id ∈ done))).map optionOf).isEmpty = true
  · rw [if_pos h]
    constructor
    · rw [List.isEmpty_iff, List.map_eq_nil_iff, List.filter_eq_nil_iff] at h
      simp only [true_iff]
      intro t ht
      simpa using h t ht
    · intro opts hc
      cases hc
  · rw [if_neg h]
    constructor
    · constructor
      · intro hc
        cases hc
      · intro hall
        exfalso
        apply h
        rw [List.isEmpty_iff, List.map_eq_nil_iff, List.filter_eq_nil_iff]
        intro t ht
        simpa using hall t ht
    · intro opts hopts
      have : opts = (items.filter (fun t => decide (t.id ∈ done))).map optionOf :=
        (Option.some_inj.mp hopts).symm
      subst this
      refine ⟨fun hc => h (by rw [hc]; rfl), rfl, ?_⟩
      rw [List.map_map]
      rfl

/-- Claim C6, witness: with `done = {t1}` on a two-task group, the control
carries `initial_options = some [⟨"Task one", "t1"⟩]`, a nonempty list
holding exactly the completed task's option. -/
theorem C6_witness :
    [(⟨"Task one", "t1"⟩ : OptionObj)] ≠ [] ∧
      [(⟨"Task one", "t1"⟩ : OptionObj)] =
        (([⟨"t1", "Task one", "G1"⟩, ⟨"t2", "Task two", "G1"⟩] : List Task).filter
            (fun t => decide (t.id ∈ ({"t1"} : Finset String)))).map optionOf ∧
      ([(⟨"Task one", "t1"⟩ : OptionObj)]).map (fun o => o.value) =
        (([⟨"t1", "Task one", "G1"⟩, ⟨"t2", "Task two", "G1"⟩] : List Task).filter
            (fun t => decide (t.id ∈ ({"t1"} : Finset String)))).map (fun t => t.id) :=
  (C6_initial_options_omitted_when_empty "G1"
      [⟨"t1", "Task one", "G1"⟩, ⟨"t2", "Task two", "G1"⟩] {"t1"}).2
    [⟨"Task one", "t1"⟩] (by decide)

/-- Claim C7: the view builder is deterministic and consumes no
timestamps: rewriting every row's `updated_at` through any function leaves
the rendered view identical, and any two stores giving the user the same
completed set render identical views (the view depends on the store only
through `get_done_set`; catalog and resources are its only other
inputs). -/
theorem C7_view_determinism (tasks : List Task) (res : Resources) (u : String)
    (db db2 : DB) (f : String → String) :
    build_home_view tasks res
        (db.map (fun r => { r with updated_at := f r.updated_at })) u =
      build_home_view tasks res db u ∧
    (get_done_set u db2 = get_done_set u db →
      build_home_view tasks res db2 u = build_home_view tasks res db u) := by
  constructor
  · show render_home tasks res _ = render_home tasks res _
    rw [get_done_set_map_updated_at]
  · intro h
    show render_home tasks res _ = render_home tasks res _
    rw [h]

/-- Claim C7, witness: two stores that differ only in insertion timestamps
(`u`'s rows created at `n0` vs `m0`) render byte-identical views. -/
theorem C7_witness :
    build_home_view catalogAB RESOURCES (ensure_user_rows catalogAB "m0" "u" []) "u" =
      build_home_view catalogAB RESOURCES dbAB "u" :=
  (C7_view_determinism catalogAB RESOURCES "u" dbAB
      (ensure_user_rows catalogAB "m0" "u" []) (fun x => x)).2 (by decide)

/-- Claim C8: the rendered view is the three header blocks, then, for each
catalog group in order of first occurrence in the catalog sequence, a
subsection line `*{group}* ({completedInGroup}/{groupSize})` (where
`completedInGroup` counts the group's tasks in the completed set and
`groupSize` is the group's task count) followed by one checkbox control
over every task of the group (label and id), and finally the resources
context block.  `group_names_in_order` lists each catalog group exactly
once, ordered by first occurrence. -/
theorem C8_view_structure (tasks : List Task) (res : Resources) (done : Finset String) :
    (render_home tasks res done).blocks =
        [ Block.header "TMS Onboarding Checklist"
        , Block.sectionMrkdwn "Welcome to The Movement Street. Check items as you complete them. Your progress saves automatically."
        , Block.sectionMrkdwn ("*Progress:* " ++ progressText done tasks.length) ] ++
        (group_names_in_order tasks).flatMap (fun g =>
          [ Block.sectionMrkdwn ("*" ++ g ++ "* (" ++
              toString ((tasks.filter (fun t => t.group == g)).countP
                (fun t => decide (t.id ∈ done))) ++ "/" ++
              toString (tasks.filter (fun t => t.group == g)).length ++ ")")
          , Block.actions [checkboxElementFor g (tasks.filter (fun t => t.group == g)) done] ]) ++
        [ Block.contextMd ("Resources: " ++ resourcesMd res) ] ∧
      (∀ g, (checkboxElementFor g (tasks.filter (fun t => t.group == g)) done).options =
        (tasks.filter (fun t => t.group == g)).map optionOf) ∧
      (∀ g, g ∈ group_names_in_order tasks ↔ g ∈ tasks.map (fun t => t.group)) ∧
      (group_names_in_order tasks).Nodup ∧
      (group_names_in_order tasks).Pairwise (fun a b =>
        (tasks.map (fun t => t.group)).indexOf a < (tasks.map (fun t => t.group)).indexOf b) := by
  obtain ⟨hmem, hnd, hpw⟩ := group_names_in_order_props tasks
  refine ⟨?_, fun g => rfl, hmem, hnd, hpw⟩
  simp only [render_home, getGroup_tasks_by_group]

/-- Claim C9: writes never leave the catalog.  Every store reachable by
the program's writes contains only rows whose `task_id` is a catalog task
id; `set_done_bulk` silently never persists a done id outside the catalog
(the completed set at such an id is unchanged); and a stored row whose
`task_id` is outside the catalog survives both `set_done_bulk` and
`ensure_user_rows` with its `done` and `updated_at` intact. -/
theorem C9_rows_stay_in_catalog (tasks : List Task) :
    (∀ db, ReachableDB tasks db → ∀ r ∈ db, r.task_id ∈ tasks.map (fun t => t.id)) ∧
      (∀ now u nd (db : DB) tid, tid ∉ idsOf tasks →
        (tid ∈ get_done_set u (set_done_bulk tasks now u nd db) ↔
          tid ∈ get_done_set u db)) ∧
      (∀ now u nd (db : DB) r, r ∈ db → r.task_id ∉ tasks.map (fun t => t.id) →
        r ∈ set_done_bulk tasks now u nd db) ∧
      (∀ now u (db : DB) r, r ∈ db → r ∈ ensure_user_rows tasks now u db) := by
  refine ⟨?_, ?_, ?_, ?_⟩
  · intro db h
    induction h with
    | empty => intro r hr; cases hr
    | ensure now u hprev ih =>
        intro r hr
        obtain ⟨ext, hdec, hprop⟩ := ensure_user_rows_append_decomp tasks now _ _
        rw [hdec] at hr
        rcases List.mem_append.mp hr with hr1 | hr2
        · exact ih r hr1
        · obtain ⟨-, -, -, h4, -⟩ := hprop r hr2
          exact h4
    | setBulk now u nd hprev ih =>
        intro r hr
        rw [set_done_bulk_eq_map] at hr
        obtain ⟨r0, hr0, rfl⟩ := List.mem_map.mp hr
        rw [bulkUpd_task_id]
        exact ih r0 hr0
  · intro now u nd db tid htid
    rw [mem_get_done_set_set_done_bulk]
    constructor
    · rintro (⟨hids, -, -⟩ | ⟨-, hc⟩)
      · exact absurd hids htid
      · exact hc
    · intro hc
      exact Or.inr ⟨htid, hc⟩
  · intro now u nd db r hr hout
    rw [set_done_bulk_eq_map]
    exact List.mem_map.mpr ⟨r, hr, bulkUpd_eq_self_of_not_mem tasks now u nd r hout⟩
  · intro now u db r hr
    obtain ⟨ext, hdec, -⟩ := ensure_user_rows_append_decomp tasks now u db
    rw [hdec]
    exact List.mem_append_left ext hr

/-- Claim C9, witness: a row created by initializing a user on the real
catalog carries a catalog task id. -/
theorem C9_witness :
    (⟨"u", "welcome_letter", false, "n0"⟩ : Row).task_id ∈
      TASKS.map (fun t => t.id) :=
  (C9_rows_stay_in_catalog TASKS).1 (ensure_user_rows TASKS "n0" "u" [])
    (ReachableDB.ensure "n0" "u" ReachableDB.empty)
    ⟨"u", "welcome_letter", false, "n0"⟩ (by decide)

/-- Claim C10: `get_done_set` is total on unknown users: with no stored
rows for the user it returns the empty set, so a toggle handled before the
user was ever initialized reads `currentDone = {}`, merges
`new_done = selected`, and persists exactly the selected catalog ids. -/
theorem C10_unknown_user_total (tasks : List Task) (res : Resources)
    (nowE nowS u action_id : String) (selected : List String) (db : DB)
    (h : ∀ r ∈ db, r.user_id ≠ u) :
    get_done_set u db = ∅ ∧
      mergeDone (get_done_set u db) (groupTaskIdsFor tasks (toggleGroupKey action_id))
          selected.toFinset =
        selected.toFinset ∧
      get_done_set u (handle_toggle_any_group tasks res nowE nowS u action_id selected db).db =
        idsOf tasks ∩ selected.toFinset := by
  have hempty : get_done_set u db = ∅ := by
    ext tid
    simp only [Finset.not_mem_empty, iff_false]
    intro hc
    obtain ⟨r, hr, hu, -, -⟩ := mem_get_done_set.mp hc
    exact h r hr hu
  refine ⟨hempty, ?_, ?_⟩
  · rw [hempty, mergeDone, Finset.empty_sdiff, Finset.empty_union]
  · ext tid
    rw [mem_get_done_set_handle_toggle, hempty]
    simp [mergeDone]

/-- Claim C10, witness: a store holding only another user's rows gives
user `u` the empty completed set, and `u`'s first toggle persists exactly
the selected catalog ids. -/
theorem C10_witness :
    get_done_set "u" dbOtherUser = ∅ ∧
      get_done_set "u" c10_toggle.db = idsOf catalogAAB ∩ (["a1"] : List String).toFinset :=
  ⟨(C10_unknown_user_total catalogAAB RESOURCES "n1" "n1s" "u" "task_toggle_a" ["a1"]
      dbOtherUser (by decide)).1,
    (C10_unknown_user_total catalogAAB RESOURCES "n1" "n1s" "u" "task_toggle_a" ["a1"]
      dbOtherUser (by decide)).2.2⟩

end OnboardApp
